import Mathlib

/-!
Shallow embedding of `src/Serve.js`, a CloudPRNT job-broker server.

The mutable process state of the server is the pair of the global counter
`nextJobId` and the in-memory array `jobs` (Serve.js lines 37-39). Each of
the four HTTP handlers is embedded as a pure function from the store (plus
the request's parameters) to a response paired with the updated store.
JavaScript strings are modelled by Lean `String`; `Date.now()` is an
external input and is passed to the submit handler as an explicit `now`
argument; a JSON field that may be absent is an `Option`.
-/

namespace CloudPrnt

/-- Job status strings used by Serve.js: "pending" | "printing" | "done" | "error". -/
inductive Status where
  | pending
  | printing
  | done
  | error
deriving DecidableEq, Repr

/-- A job record, as pushed by `app.post("/api/order")` (Serve.js lines 55-60):
`\x7b id, token, content, status \x7d`. -/
structure Job where
  id : Nat
  token : String
  content : String
  status : Status
deriving DecidableEq, Repr

/-- The server's mutable state: the counter `nextJobId` (line 37) and the
array `jobs` (line 39), in insertion (push) order. -/
structure Store where
  nextJobId : Nat
  jobs : List Job
deriving DecidableEq, Repr

/-- The state at process start: `let nextJobId = 1; const jobs = []`. -/
def initStore : Store := ⟨1, []⟩

/-! ### Decimal rendering of numbers (the `$\x7bid\x7d` template-literal pieces)

JavaScript renders the number `id` and the number `Date.now()` in decimal
inside the token template literal. We embed that decimal rendering directly
(fuel-based so that it is structurally recursive): most-significant digit
first, matching `String(n)` for a natural number `n`. -/

/-- Decimal digits of `n`, most significant first, with explicit fuel. -/
def natReprAux : Nat → Nat → List Char
  | 0, _ => []
  | fuel + 1, n =>
    if n < 10 then [Nat.digitChar n]
    else natReprAux fuel (n / 10) ++ [Nat.digitChar (n % 10)]

/-- Decimal digit list of `n`, most significant first (`n + 1` is always
enough fuel). -/
def natRepr (n : Nat) : List Char := natReprAux (n + 1) n

/-- `makeToken` (Serve.js lines 41-43): `` `job-$\x7bid\x7d-$\x7bDate.now()\x7d` ``.
`ts` is the value of `Date.now()` at the call. -/
def makeToken (id ts : Nat) : String :=
  String.mk (['j', 'o', 'b', '-'] ++ natRepr id ++ '-' :: natRepr ts)

/-! ### JSON values and request parameters -/

/-- A JSON value that may sit in the `text` field of the submit body.
`num` models JavaScript numbers as integers (enough for the truthiness
check `!text`); all the handler does with a non-string is reject it. -/
inductive JSVal where
  | str (s : String)
  | num (k : Int)
  | boolean (b : Bool)
  | null
deriving DecidableEq, Repr

/-! ### Responses

Each handler's possible responses are one inductive; a companion
`httpCode` function records the HTTP status the handler sends. -/

/-- Responses of `app.post("/api/order")` (Serve.js lines 46-64). -/
inductive SubmitResp where
  | err (msg : String)
  | ok (id : Nat) (token : String)
deriving DecidableEq, Repr

/-- HTTP status of a submit response: 400 for the error JSON, 200 otherwise. -/
def SubmitResp.httpCode : SubmitResp → Nat
  | .err _ => 400
  | .ok _ _ => 200

/-- Responses of `app.post("/cloudprnt")` (Serve.js lines 75-99): both
response bodies are JSON and both are sent with HTTP 200. `jobToken` and
`pollInterval` are `none` exactly when the field is absent from the JSON. -/
structure PollResp where
  jobReady : Nat
  jobToken : Option String
  mediaTypes : List String
  pollInterval : Option Nat
deriving DecidableEq, Repr

/-- Responses of `app.get("/cloudprnt")` (Serve.js lines 102-117). -/
inductive FetchResp where
  | badRequest (msg : String)
  | notFound (msg : String)
  | contentResp (body : String)
deriving DecidableEq, Repr

/-- HTTP status of a fetch response. -/
def FetchResp.httpCode : FetchResp → Nat
  | .badRequest _ => 400
  | .notFound _ => 404
  | .contentResp _ => 200

/-- Responses of `app.delete("/cloudprnt")` (Serve.js lines 120-142). -/
inductive AckResp where
  | badRequest (msg : String)
  | notFound (msg : String)
  | okResp (msg : String)
deriving DecidableEq, Repr

/-- HTTP status of an acknowledge response. -/
def AckResp.httpCode : AckResp → Nat
  | .badRequest _ => 400
  | .notFound _ => 404
  | .okResp _ => 200

/-! ### The four handlers -/

/-- `app.post("/api/order")` (Serve.js lines 46-64).
`text` is the `text` field of `req.body || \x7b\x7d` (`none` when the body or
the field is absent). The guard embeds `!text || typeof text !== "string"`:
a present non-empty string passes it, everything else (absent, null,
boolean, number, empty string) fails it. On success the job is pushed at
the end of `jobs` with `status: "pending"` and the counter advances. -/
def submitOrder (s : Store) (now : Nat) (text : Option JSVal) : SubmitResp × Store :=
  match text with
  | some (JSVal.str t) =>
    if t = "" then
      (SubmitResp.err "Missing 'text' field", s)
    else
      let id := s.nextJobId
      let token := makeToken id now
      (SubmitResp.ok id token,
        ⟨id + 1, s.jobs ++ [⟨id, token, t, Status.pending⟩]⟩)
  | _ => (SubmitResp.err "Missing 'text' field", s)

/-- Boolean form of "this job is pending", the predicate of
`jobs.find(j => j.status === "pending")`. -/
def isPending (j : Job) : Bool := decide (j.status = Status.pending)

/-- The poll handler's compound action on the array: `jobs.find(j =>
j.status === "pending")` followed by the in-place `job.status = "printing"`
on the found object. Returns the job as found together with the array after
the mutation, or `none` when no job is pending. -/
def claimFirstPending : List Job → Option (Job × List Job)
  | [] => none
  | j :: rest =>
    if j.status = Status.pending then
      some (j, { j with status := Status.printing } :: rest)
    else
      match claimFirstPending rest with
      | none => none
      | some (found, rest') => some (found, j :: rest')

/-- `app.post("/cloudprnt")` (Serve.js lines 75-99). The device-status body
is only logged, so it is not a parameter of the embedding. -/
def pollCloudprnt (s : Store) : PollResp × Store :=
  match claimFirstPending s.jobs with
  | none =>
    ({ jobReady := 0, jobToken := none, mediaTypes := ["text/plain"], pollInterval := none }, s)
  | some (j, jobs') =>
    ({ jobReady := 1, jobToken := some j.token, mediaTypes := ["text/plain"],
       pollInterval := some 5 },
     { s with jobs := jobs' })

/-- `app.get("/cloudprnt")` (Serve.js lines 102-117). `tokenParam` is the
query parameter `job_token`; `none` models an absent parameter and the
empty string is also rejected because `!token` is true for `""`. -/
def fetchCloudprnt (s : Store) (tokenParam : Option String) : FetchResp × Store :=
  match tokenParam with
  | none => (FetchResp.badRequest "Missing job_token", s)
  | some t =>
    if t = "" then (FetchResp.badRequest "Missing job_token", s)
    else
      match s.jobs.find? (fun j => j.token == t) with
      | none => (FetchResp.notFound "Job not found", s)
      | some j => (FetchResp.contentResp j.content, s)

/-- The acknowledge handler's in-place `job.status = ...` on the first job
whose token matches (the object `jobs.find` returned). -/
def setFirstTokenStatus (t : String) (st : Status) : List Job → List Job
  | [] => []
  | j :: rest =>
    if j.token == t then { j with status := st } :: rest
    else j :: setFirstTokenStatus t st rest

/-- `app.delete("/cloudprnt")` (Serve.js lines 120-142). `tokenParam` and
`statusParam` are the query parameters `job_token` and `status`. Only the
token is checked for presence; `status === "0"` records `done` and any
other value of `status` (including an absent one) records `error`. -/
def ackCloudprnt (s : Store) (tokenParam statusParam : Option String) : AckResp × Store :=
  match tokenParam with
  | none => (AckResp.badRequest "Missing job_token", s)
  | some t =>
    if t = "" then (AckResp.badRequest "Missing job_token", s)
    else
      match s.jobs.find? (fun j => j.token == t) with
      | none => (AckResp.notFound "Job not found", s)
      | some _ =>
        let newStatus := if statusParam = some "0" then Status.done else Status.error
        (AckResp.okResp "OK", { s with jobs := setFirstTokenStatus t newStatus s.jobs })

/-! ### Operation traces -/

/-- One inbound request, for reasoning about sequences of operations. -/
inductive Op where
  | opSubmit (now : Nat) (text : Option JSVal)
  | opPoll
  | opFetch (tokenParam : Option String)
  | opAck (tokenParam statusParam : Option String)
deriving DecidableEq, Repr

/-- The state transition of one request (the response is dropped). -/
def applyOp (s : Store) : Op → Store
  | Op.opSubmit now text => (submitOrder s now text).2
  | Op.opPoll => (pollCloudprnt s).2
  | Op.opFetch tp => (fetchCloudprnt s tp).2
  | Op.opAck tp sp => (ackCloudprnt s tp sp).2

/-- Run a list of requests in order. -/
def runOps (s : Store) : List Op → Store
  | [] => s
  | o :: rest => runOps (applyOp s o) rest

/-- The `(id, token)` pairs returned by the successful submissions of a
sequence of submit requests, in order. -/
def submitOutputs (s : Store) : List (Nat × Option JSVal) → List (Nat × String)
  | [] => []
  | (now, text) :: rest =>
    match submitOrder s now text with
    | (SubmitResp.ok id token, s') => (id, token) :: submitOutputs s' rest
    | (SubmitResp.err _, s') => submitOutputs s' rest

/-! ### Facts about the decimal rendering and token uniqueness -/

/-- Numeric value of a decimal digit character. -/
def charVal (c : Char) : Nat := c.toNat - 48

/-- Value of a most-significant-first decimal digit list. -/
def digitsVal (l : List Char) : Nat := l.foldl (fun a c => 10 * a + charVal c) 0

theorem digitChar_ne_dash (n : Nat) (h : n < 10) : Nat.digitChar n ≠ '-' := by
  interval_cases n <;> decide

theorem charVal_digitChar (n : Nat) (h : n < 10) : charVal (Nat.digitChar n) = n := by
  interval_cases n <;> decide

theorem natReprAux_no_dash (fuel n : Nat) : ∀ c ∈ natReprAux fuel n, c ≠ '-' := by
  induction fuel generalizing n with
  | zero => intro c hc; simp [natReprAux] at hc
  | succ fuel ih =>
    intro c hc
    rw [natReprAux] at hc
    by_cases h : n < 10
    · simp [h] at hc
      subst hc
      exact digitChar_ne_dash n h
    · simp [h, List.mem_append] at hc
      rcases hc with hc | hc
      · exact ih (n / 10) c hc
      · subst hc
        exact digitChar_ne_dash (n % 10) (Nat.mod_lt n (by omega))

theorem natRepr_no_dash (n : Nat) : ∀ c ∈ natRepr n, c ≠ '-' :=
  natReprAux_no_dash (n + 1) n

theorem digitsVal_append_singleton (l : List Char) (c : Char) :
    digitsVal (l ++ [c]) = 10 * digitsVal l + charVal c := by
  simp [digitsVal, List.foldl_append]

theorem digitsVal_natReprAux (fuel n : Nat) (h : n < fuel) :
    digitsVal (natReprAux fuel n) = n := by
  induction fuel generalizing n with
  | zero => omega
  | succ fuel ih =>
    rw [natReprAux]
    by_cases hn : n < 10
    · simp [hn, digitsVal, digitsVal_append_singleton]
      exact charVal_digitChar n hn
    · simp [hn, digitsVal_append_singleton]
      have hdiv : n / 10 < fuel := by
        have h1 : n / 10 < n := Nat.div_lt_self (by omega) (by omega)
        omega
      rw [ih (n / 10) hdiv, charVal_digitChar (n % 10) (Nat.mod_lt n (by omega))]
      omega

theorem digitsVal_natRepr (n : Nat) : digitsVal (natRepr n) = n :=
  digitsVal_natReprAux (n + 1) n (Nat.lt_succ_self n)

theorem natRepr_injective {a b : Nat} (h : natRepr a = natRepr b) : a = b := by
  have := congrArg digitsVal h
  rwa [digitsVal_natRepr, digitsVal_natRepr] at this

/-- Splitting at the first separator: lists that contain no dash, each
followed by a dash and a remainder, agree componentwise when their
concatenations agree. -/
theorem noDash_split (l1 : List Char) :
    ∀ (l2 r1 r2 : List Char), (∀ c ∈ l1, c ≠ '-') → (∀ c ∈ l2, c ≠ '-') →
      l1 ++ '-' :: r1 = l2 ++ '-' :: r2 → l1 = l2 ∧ r1 = r2 := by
  induction l1 with
  | nil =>
    intro l2 r1 r2 _ h2 he
    cases l2 with
    | nil => simpa using he
    | cons c l2' =>
      simp at he
      exact absurd he.1.symm (h2 c (List.mem_cons_self c l2'))
  | cons c l1' ih =>
    intro l2 r1 r2 h1 h2 he
    cases l2 with
    | nil =>
      simp at he
      exact absurd he.1 (h1 c (List.mem_cons_self c l1'))
    | cons d l2' =>
      simp at he
      obtain ⟨rfl, he'⟩ := he
      have := ih l2' r1 r2 (fun x hx => h1 x (List.mem_cons_of_mem c hx))
        (fun x hx => h2 x (List.mem_cons_of_mem c hx)) he'
      exact ⟨by rw [this.1], this.2⟩

/-- Tokens built from different ids are different strings, whatever the two
timestamps were: the id's decimal digits are everything before the second
dash, and decimal rendering is injective. -/
theorem makeToken_inj_id {a s b t : Nat} (h : makeToken a s = makeToken b t) : a = b := by
  have hd := congrArg String.data h
  simp [makeToken] at hd
  exact natRepr_injective
    (noDash_split (natRepr a) (natRepr b) (natRepr s) (natRepr t)
      (natRepr_no_dash a) (natRepr_no_dash b) hd).1

theorem makeToken_ne_empty (id ts : Nat) : makeToken id ts ≠ "" := by
  intro h
  have := congrArg String.data h
  simp [makeToken] at this

/-! ### Structural lemmas about the handlers' list operations -/

/-- The part of a job record that no device interaction ever changes:
everything except the status. -/
def jobKey (j : Job) : Nat × String × String := (j.id, j.token, j.content)

theorem claimFirstPending_none_iff (l : List Job) :
    claimFirstPending l = none ↔ ∀ j ∈ l, j.status ≠ Status.pending := by
  induction l with
  | nil => simp [claimFirstPending]
  | cons a rest ih =>
    by_cases ha : a.status = Status.pending
    · simp [claimFirstPending, ha]
    · rw [claimFirstPending]
      simp only [if_neg ha, List.mem_cons]
      cases hrec : claimFirstPending rest with
      | none =>
        simp only [true_iff]
        intro j hj
        rcases hj with rfl | hj
        · exact ha
        · exact (ih.mp hrec) j hj
      | some p =>
        simp only [reduceCtorEq, false_iff]
        intro h
        have hnone : claimFirstPending rest = none :=
          ih.mpr fun j hj => h j (Or.inr hj)
        rw [hnone] at hrec
        cases hrec

theorem claimFirstPending_some {l : List Job} {j : Job} {l' : List Job}
    (h : claimFirstPending l = some (j, l')) :
    ∃ l1 l2, l = l1 ++ j :: l2 ∧ (∀ x ∈ l1, x.status ≠ Status.pending) ∧
      j.status = Status.pending ∧ l' = l1 ++ { j with status := Status.printing } :: l2 := by
  induction l generalizing j l' with
  | nil => simp [claimFirstPending] at h
  | cons a rest ih =>
    by_cases ha : a.status = Status.pending
    · rw [claimFirstPending, if_pos ha] at h
      simp only [Option.some.injEq, Prod.mk.injEq] at h
      obtain ⟨rfl, rfl⟩ := h
      exact ⟨[], rest, by simp, by simp, ha, by simp⟩
    · rw [claimFirstPending, if_neg ha] at h
      cases hrec : claimFirstPending rest with
      | none => rw [hrec] at h; cases h
      | some p =>
        rw [hrec] at h
        obtain ⟨f, rest'⟩ := p
        simp only [Option.some.injEq, Prod.mk.injEq] at h
        obtain ⟨rfl, rfl⟩ := h
        obtain ⟨l1, l2, hdec, hnp, hp, hrest'⟩ := ih hrec
        exact ⟨a :: l1, l2, by simp [hdec], by
          intro x hx
          rcases List.mem_cons.mp hx with rfl | hx
          · exact ha
          · exact hnp x hx, hp, by simp [hrest']⟩

theorem claimFirstPending_filter {l : List Job} {j : Job} {l' : List Job}
    (h : claimFirstPending l = some (j, l')) :
    l.filter isPending = j :: l'.filter isPending := by
  obtain ⟨l1, l2, rfl, hnp, hp, rfl⟩ := claimFirstPending_some h
  have h1 : l1.filter isPending = [] := by
    rw [List.filter_eq_nil_iff]
    intro x hx
    simp [isPending, hnp x hx]
  simp [List.filter_append, h1, isPending, hp]

theorem claimFirstPending_map_jobKey {l : List Job} {j : Job} {l' : List Job}
    (h : claimFirstPending l = some (j, l')) :
    l'.map jobKey = l.map jobKey := by
  obtain ⟨l1, l2, rfl, _, _, rfl⟩ := claimFirstPending_some h
  simp [jobKey]

theorem setFirstTokenStatus_map_jobKey (t : String) (st : Status) (l : List Job) :
    (setFirstTokenStatus t st l).map jobKey = l.map jobKey := by
  induction l with
  | nil => rfl
  | cons a rest ih =>
    rw [setFirstTokenStatus]
    by_cases ha : a.token == t
    · simp [ha, jobKey]
    · simp only [ha, Bool.false_eq_true, if_false, List.map_cons, ih]

/-! ### The reachable-store invariant -/

/-- Invariant of every store reachable from `initStore`: each job's id is
below the counter and its token was built by `makeToken` from its own id,
and the ids are pairwise distinct. -/
def StoreInv (s : Store) : Prop :=
  (∀ j ∈ s.jobs, j.id < s.nextJobId ∧ ∃ ts, j.token = makeToken j.id ts) ∧
  (s.jobs.map fun j => j.id).Nodup

theorem storeInv_init : StoreInv initStore := by
  constructor <;> simp [initStore]

theorem map_id_of_map_jobKey {l l' : List Job}
    (hm : l'.map jobKey = l.map jobKey) :
    (l'.map fun j => j.id) = l.map fun j => j.id := by
  have h := congrArg (List.map Prod.fst) hm
  simpa [List.map_map, Function.comp, jobKey] using h

theorem storeInv_of_map_jobKey {s s' : Store} (hn : s'.nextJobId = s.nextJobId)
    (hm : s'.jobs.map jobKey = s.jobs.map jobKey) (h : StoreInv s) : StoreInv s' := by
  constructor
  · intro j' hj'
    have hk : jobKey j' ∈ s.jobs.map jobKey := by
      rw [← hm]
      exact List.mem_map_of_mem jobKey hj'
    obtain ⟨j, hj, hkey⟩ := List.mem_map.mp hk
    have hid : j.id = j'.id := congrArg (fun p => p.1) hkey
    have htok : j.token = j'.token := congrArg (fun p => p.2.1) hkey
    obtain ⟨hlt, ts, hts⟩ := h.1 j hj
    exact ⟨by rw [hn, ← hid]; exact hlt, ts, by rw [← htok, ← hid]; exact hts⟩
  · rw [map_id_of_map_jobKey hm]
    exact h.2

theorem storeInv_submit (s : Store) (now : Nat) (text : Option JSVal)
    (h : StoreInv s) : StoreInv (submitOrder s now text).2 := by
  match text with
  | none | some (JSVal.num _) | some (JSVal.boolean _) | some JSVal.null =>
    exact h
  | some (JSVal.str t) =>
    by_cases ht : t = ""
    · simp only [submitOrder, if_pos ht]
      exact h
    · simp only [submitOrder, if_neg ht]
      constructor
      · intro j hj
        rcases List.mem_append.mp hj with hj | hj
        · obtain ⟨hlt, ts, hts⟩ := h.1 j hj
          exact ⟨Nat.lt_succ_of_lt hlt, ts, hts⟩
        · rcases List.mem_singleton.mp hj with rfl
          exact ⟨Nat.lt_succ_self _, now, rfl⟩
      · simp only [List.map_append, List.map_cons, List.map_nil, List.nodup_append]
        refine ⟨h.2, List.nodup_singleton _, ?_⟩
        intro a ha hb
        rcases List.mem_singleton.mp hb with rfl
        obtain ⟨j, hj, hid⟩ := List.mem_map.mp ha
        have := (h.1 j hj).1
        omega

theorem storeInv_poll (s : Store) (h : StoreInv s) : StoreInv (pollCloudprnt s).2 := by
  cases hc : claimFirstPending s.jobs with
  | none =>
    have : (pollCloudprnt s).2 = s := by rw [pollCloudprnt, hc]
    rwa [this]
  | some p =>
    obtain ⟨j, jobs'⟩ := p
    have : (pollCloudprnt s).2 = { s with jobs := jobs' } := by rw [pollCloudprnt, hc]
    rw [this]
    exact @storeInv_of_map_jobKey s ⟨s.nextJobId, jobs'⟩ rfl (claimFirstPending_map_jobKey hc) h

theorem storeInv_fetch (s : Store) (tp : Option String) : (fetchCloudprnt s tp).2 = s := by
  unfold fetchCloudprnt
  cases tp with
  | none => rfl
  | some t =>
    by_cases ht : t = ""
    · simp [ht]
    · simp only [if_neg ht]
      cases s.jobs.find? (fun j => j.token == t) <;> rfl

theorem storeInv_ack (s : Store) (tp sp : Option String) (h : StoreInv s) :
    StoreInv (ackCloudprnt s tp sp).2 := by
  cases tp with
  | none => exact h
  | some t =>
    by_cases ht : t = ""
    · have he : (ackCloudprnt s (some t) sp).2 = s := by rw [ackCloudprnt, if_pos ht]
      rwa [he]
    · cases hfind : s.jobs.find? (fun j => j.token == t) with
      | none =>
        have he : (ackCloudprnt s (some t) sp).2 = s := by
          rw [ackCloudprnt, if_neg ht, hfind]
        rwa [he]
      | some j =>
        have he : (ackCloudprnt s (some t) sp).2 =
            ⟨s.nextJobId,
              setFirstTokenStatus t (if sp = some "0" then Status.done else Status.error) s.jobs⟩ := by
          rw [ackCloudprnt, if_neg ht, hfind]
        rw [he]
        exact @storeInv_of_map_jobKey s
          ⟨s.nextJobId,
            setFirstTokenStatus t (if sp = some "0" then Status.done else Status.error) s.jobs⟩
          rfl (setFirstTokenStatus_map_jobKey _ _ _) h

theorem storeInv_applyOp (s : Store) (o : Op) (h : StoreInv s) : StoreInv (applyOp s o) := by
  cases o with
  | opSubmit now text => exact storeInv_submit s now text h
  | opPoll => exact storeInv_poll s h
  | opFetch tp => rw [applyOp, storeInv_fetch]; exact h
  | opAck tp sp => exact storeInv_ack s tp sp h

theorem storeInv_runOps (s : Store) (ops : List Op) (h : StoreInv s) :
    StoreInv (runOps s ops) := by
  induction ops generalizing s with
  | nil => exact h
  | cons o rest ih => exact ih (applyOp s o) (storeInv_applyOp s o h)

theorem inv_tokens_nodup {s : Store} (h : StoreInv s) :
    (s.jobs.map fun j => j.token).Nodup := by
  have hid : s.jobs.Pairwise fun a b => a.id ≠ b.id := List.pairwise_map.mp h.2
  rw [List.Nodup, List.pairwise_map]
  refine List.Pairwise.imp_of_mem ?_ hid
  intro a b ha hb hne heq
  obtain ⟨_, ta, hta⟩ := h.1 a ha
  obtain ⟨_, tb, htb⟩ := h.1 b hb
  rw [hta, htb] at heq
  exact hne (makeToken_inj_id heq)

theorem find?_token_of_nodup {l : List Job} {j : Job}
    (hnd : (l.map fun x => x.token).Nodup) (hj : j ∈ l) :
    l.find? (fun x => x.token == j.token) = some j := by
  induction l with
  | nil => cases hj
  | cons a rest ih =>
    simp only [List.map_cons, List.nodup_cons] at hnd
    rcases List.mem_cons.mp hj with rfl | hj
    · simp [List.find?_cons_of_pos]
    · have hne : a.token ≠ j.token := by
        intro heq
        exact hnd.1 (heq ▸ List.mem_map_of_mem (fun x => x.token) hj)
      rw [List.find?_cons_of_neg _ (by simpa using hne)]
      exact ih hnd.2 hj

/-- Under the invariant, the first token match for a member's token is that
member itself. -/
theorem find?_token_of_mem {s : Store} {j : Job} (h : StoreInv s) (hj : j ∈ s.jobs) :
    s.jobs.find? (fun x => x.token == j.token) = some j :=
  find?_token_of_nodup (inv_tokens_nodup h) hj

/-! ### Dispatch-order and lookup helper lemmas -/

theorem claimFirstPending_eq (l1 : List Job) (j : Job) (l2 : List Job)
    (hnp : ∀ x ∈ l1, x.status ≠ Status.pending) (hp : j.status = Status.pending) :
    claimFirstPending (l1 ++ j :: l2) =
      some (j, l1 ++ { j with status := Status.printing } :: l2) := by
  induction l1 with
  | nil => simp [claimFirstPending, hp]
  | cons a rest ih =>
    have ha := hnp a (List.mem_cons_self a rest)
    rw [List.cons_append, claimFirstPending, if_neg ha,
      ih fun x hx => hnp x (List.mem_cons_of_mem a hx)]
    simp

theorem poll_filter (s : Store) :
    (pollCloudprnt s).2.jobs.filter isPending = (s.jobs.filter isPending).tail := by
  cases hc : claimFirstPending s.jobs with
  | none =>
    have hnil : s.jobs.filter isPending = [] := by
      rw [List.filter_eq_nil_iff]
      intro x hx
      simp [isPending, (claimFirstPending_none_iff s.jobs).mp hc x hx]
    have he : (pollCloudprnt s).2 = s := by rw [pollCloudprnt, hc]
    rw [he, hnil]
    rfl
  | some p =>
    obtain ⟨j, jobs'⟩ := p
    have he : (pollCloudprnt s).2 = { s with jobs := jobs' } := by rw [pollCloudprnt, hc]
    rw [he, claimFirstPending_filter hc]
    rfl

theorem poll_jobToken (s : Store) :
    ((pollCloudprnt s).1).jobToken =
      ((s.jobs.filter isPending).head?).map fun j => j.token := by
  cases hc : claimFirstPending s.jobs with
  | none =>
    have hnil : s.jobs.filter isPending = [] := by
      rw [List.filter_eq_nil_iff]
      intro x hx
      simp [isPending, (claimFirstPending_none_iff s.jobs).mp hc x hx]
    rw [pollCloudprnt, hc, hnil]
    rfl
  | some p =>
    obtain ⟨j, jobs'⟩ := p
    rw [pollCloudprnt, hc, claimFirstPending_filter hc]
    rfl

theorem poll_jobReady_of_filter_nil {s : Store} (h : s.jobs.filter isPending = []) :
    pollCloudprnt s =
      ({ jobReady := 0, jobToken := none, mediaTypes := ["text/plain"], pollInterval := none },
       s) := by
  have hnone : claimFirstPending s.jobs = none := by
    rw [claimFirstPending_none_iff]
    intro j hj hp
    have : j ∈ s.jobs.filter isPending := by
      rw [List.mem_filter]
      exact ⟨hj, by simp [isPending, hp]⟩
    rw [h] at this
    cases this
  rw [pollCloudprnt, hnone]

theorem poll_jobReady_of_filter_cons {s : Store} {j : Job} {rest : List Job}
    (h : s.jobs.filter isPending = j :: rest) :
    ((pollCloudprnt s).1).jobReady = 1 ∧ ((pollCloudprnt s).1).jobToken = some j.token := by
  cases hc : claimFirstPending s.jobs with
  | none =>
    have : s.jobs.filter isPending = [] := by
      rw [List.filter_eq_nil_iff]
      intro x hx
      simp [isPending, (claimFirstPending_none_iff s.jobs).mp hc x hx]
    rw [h] at this
    cases this
  | some p =>
    obtain ⟨f, jobs'⟩ := p
    have hf : f = j := by
      have := claimFirstPending_filter hc
      rw [h] at this
      exact (List.cons.inj this.symm).1
    subst hf
    rw [pollCloudprnt, hc]
    exact ⟨rfl, rfl⟩

theorem setFirstTokenStatus_decomp {l : List Job} {j : Job}
    (hnd : (l.map fun x => x.token).Nodup) (hj : j ∈ l) (st : Status) :
    ∃ l1 l2, l = l1 ++ j :: l2 ∧
      setFirstTokenStatus j.token st l = l1 ++ { j with status := st } :: l2 := by
  induction l with
  | nil => cases hj
  | cons a rest ih =>
    simp only [List.map_cons, List.nodup_cons] at hnd
    rcases List.mem_cons.mp hj with rfl | hj
    · exact ⟨[], rest, rfl, by simp [setFirstTokenStatus]⟩
    · have hne : a.token ≠ j.token := fun heq =>
        hnd.1 (heq ▸ List.mem_map_of_mem (fun x => x.token) hj)
      obtain ⟨l1, l2, hdec, hset⟩ := ih hnd.2 hj
      refine ⟨a :: l1, l2, by rw [List.cons_append, ← hdec], ?_⟩
      rw [setFirstTokenStatus, if_neg (by simpa using hne), hset]
      rfl

/-- The content (if any) that a fetch for token `t` would return. -/
def lookupContent (s : Store) (t : String) : Option String :=
  (s.jobs.find? fun j => j.token == t).map fun j => j.content

theorem find?_content_congr {l l' : List Job}
    (hm : l'.map jobKey = l.map jobKey) (t : String) :
    ((l'.find? fun x => x.token == t).map fun x => x.content) =
      ((l.find? fun x => x.token == t).map fun x => x.content) := by
  induction l generalizing l' with
  | nil =>
    have hl : List.map jobKey l' = [] := by simpa using hm
    rw [List.map_eq_nil_iff.mp hl]
  | cons a rest ih =>
    cases l' with
    | nil => cases hm
    | cons a' rest' =>
      simp only [List.map_cons, List.cons.injEq] at hm
      have htok : a'.token = a.token := congrArg (fun p => p.2.1) hm.1
      have hcon : a'.content = a.content := congrArg (fun p => p.2.2) hm.1
      by_cases hp : a.token = t
      · have h1 : List.find? (fun x => x.token == t) (a' :: rest') = some a' :=
          List.find?_cons_of_pos _ (by simp [htok, hp])
        have h2 : List.find? (fun x => x.token == t) (a :: rest) = some a :=
          List.find?_cons_of_pos _ (by simp [hp])
        rw [h1, h2]
        simp [hcon]
      · have h1 : List.find? (fun x => x.token == t) (a' :: rest') =
            List.find? (fun x => x.token == t) rest' :=
          List.find?_cons_of_neg _ (by simp [htok, hp])
        have h2 : List.find? (fun x => x.token == t) (a :: rest) =
            List.find? (fun x => x.token == t) rest :=
          List.find?_cons_of_neg _ (by simp [hp])
        rw [h1, h2]
        exact ih hm.2

theorem lookupContent_applyOp (s : Store) (o : Op) (t : String) {c : String}
    (h : lookupContent s t = some c) : lookupContent (applyOp s o) t = some c := by
  obtain ⟨j, hfind, hcont⟩ := Option.map_eq_some'.mp h
  cases o with
  | opSubmit now text =>
    have hjobs : ∃ tail, (applyOp s (Op.opSubmit now text)).jobs = s.jobs ++ tail := by
      rw [applyOp]
      match text with
      | none | some (JSVal.num _) | some (JSVal.boolean _) | some JSVal.null =>
        exact ⟨[], by simp [submitOrder]⟩
      | some (JSVal.str u) =>
        by_cases hu : u = ""
        · exact ⟨[], by simp [submitOrder, hu]⟩
        · exact ⟨_, by rw [submitOrder, if_neg hu]⟩
    obtain ⟨tail, htail⟩ := hjobs
    rw [lookupContent, htail, List.find?_append, hfind]
    simp [hcont]
  | opPoll =>
    rw [applyOp]
    cases hc : claimFirstPending s.jobs with
    | none =>
      have he : (pollCloudprnt s).2 = s := by rw [pollCloudprnt, hc]
      rwa [he]
    | some p =>
      obtain ⟨f, jobs'⟩ := p
      have he : (pollCloudprnt s).2 = { s with jobs := jobs' } := by rw [pollCloudprnt, hc]
      rw [he, lookupContent, find?_content_congr (claimFirstPending_map_jobKey hc) t]
      rw [hfind]
      simp [hcont]
  | opFetch tp =>
    rw [applyOp, storeInv_fetch]
    exact h
  | opAck tp sp =>
    rw [applyOp]
    cases tp with
    | none => exact h
    | some u =>
      by_cases hu : u = ""
      · have he : (ackCloudprnt s (some u) sp).2 = s := by rw [ackCloudprnt, if_pos hu]
        rwa [he]
      · cases hfu : s.jobs.find? (fun x => x.token == u) with
        | none =>
          have he : (ackCloudprnt s (some u) sp).2 = s := by
            rw [ackCloudprnt, if_neg hu, hfu]
          rwa [he]
        | some f =>
          have he : (ackCloudprnt s (some u) sp).2 =
              ⟨s.nextJobId,
                setFirstTokenStatus u (if sp = some "0" then Status.done else Status.error)
                  s.jobs⟩ := by
            rw [ackCloudprnt, if_neg hu, hfu]
          rw [he, lookupContent,
            find?_content_congr (setFirstTokenStatus_map_jobKey u _ s.jobs) t, hfind]
          simp [hcont]

theorem lookupContent_runOps (s : Store) (ops : List Op) (t : String) {c : String}
    (h : lookupContent s t = some c) : lookupContent (runOps s ops) t = some c := by
  induction ops generalizing s with
  | nil => exact h
  | cons o rest ih => exact ih (applyOp s o) (lookupContent_applyOp s o t h)

/-! ### Submission helper lemmas -/

theorem submit_success (s : Store) (now : Nat) (t : String) (ht : t ≠ "") :
    submitOrder s now (some (JSVal.str t)) =
      (SubmitResp.ok s.nextJobId (makeToken s.nextJobId now),
       ⟨s.nextJobId + 1,
        s.jobs ++ [⟨s.nextJobId, makeToken s.nextJobId now, t, Status.pending⟩]⟩) := by
  rw [submitOrder, if_neg ht]

theorem submit_invalid (s : Store) (now : Nat) (text : Option JSVal)
    (h : ¬ ∃ t, text = some (JSVal.str t) ∧ t ≠ "") :
    submitOrder s now text = (SubmitResp.err "Missing 'text' field", s) := by
  match text with
  | none | some (JSVal.num _) | some (JSVal.boolean _) | some JSVal.null => rfl
  | some (JSVal.str t) =>
    have ht : t = "" := by
      by_contra hne
      exact h ⟨t, rfl, hne⟩
    rw [submitOrder, if_pos ht]

theorem submit_filter (s : Store) (now : Nat) (t : String) (ht : t ≠ "") :
    (submitOrder s now (some (JSVal.str t))).2.jobs.filter isPending =
      s.jobs.filter isPending ++
        [⟨s.nextJobId, makeToken s.nextJobId now, t, Status.pending⟩] := by
  rw [submit_success s now t ht]
  simp [isPending]

/-! ### Repeated polls -/

/-- The responses of `n` sequential polls (each poll handler running to
completion before the next starts, which is how the single-threaded
JavaScript event loop serializes concurrent requests to these fully
synchronous handlers). -/
def runPolls (s : Store) : Nat → List PollResp
  | 0 => []
  | n + 1 => (pollCloudprnt s).1 :: runPolls (pollCloudprnt s).2 n

theorem countP_replicate {α : Type} (p : α → Bool) (a : α) (n : Nat) :
    (List.replicate n a).countP p = if p a then n else 0 := by
  induction n with
  | zero => simp
  | succ n ih =>
    rw [List.replicate_succ, List.countP_cons, ih]
    by_cases hp : p a <;> simp [hp]

theorem runPolls_all_zero (s : Store) (n : Nat) (h : s.jobs.filter isPending = []) :
    runPolls s n =
      List.replicate n
        { jobReady := 0, jobToken := none, mediaTypes := ["text/plain"], pollInterval := none } := by
  induction n generalizing s with
  | zero => rfl
  | succ n ih =>
    rw [runPolls, poll_jobReady_of_filter_nil h, List.replicate_succ]
    simp only [List.cons.injEq, true_and]
    exact ih s h

/-! ### Outcomes of submission sequences -/

theorem submitOutputs_spec (l : List (Nat × Option JSVal)) :
    ∀ (s : Store), ∀ p ∈ submitOutputs s l,
      s.nextJobId ≤ p.1 ∧ ∃ ts, p.2 = makeToken p.1 ts := by
  induction l with
  | nil => intro s p hp; cases hp
  | cons a rest ih =>
    intro s p hp
    obtain ⟨now, text⟩ := a
    rw [submitOutputs] at hp
    by_cases hv : ∃ t, text = some (JSVal.str t) ∧ t ≠ ""
    · obtain ⟨t, rfl, ht⟩ := hv
      rw [submit_success s now t ht] at hp
      rcases List.mem_cons.mp hp with rfl | hp
      · exact ⟨le_refl _, now, rfl⟩
      · obtain ⟨h1, h2⟩ := ih _ p hp
        have h1' : s.nextJobId + 1 ≤ p.1 := h1
        exact ⟨by omega, h2⟩
    · rw [submit_invalid s now text hv] at hp
      exact ih s p hp

theorem submitOutputs_ids_lt (l : List (Nat × Option JSVal)) :
    ∀ s : Store, (submitOutputs s l).Pairwise fun p q => p.1 < q.1 := by
  induction l with
  | nil => intro s; exact List.Pairwise.nil
  | cons a rest ih =>
    intro s
    obtain ⟨now, text⟩ := a
    rw [submitOutputs]
    by_cases hv : ∃ t, text = some (JSVal.str t) ∧ t ≠ ""
    · obtain ⟨t, rfl, ht⟩ := hv
      rw [submit_success s now t ht]
      refine List.Pairwise.cons ?_ (ih _)
      intro q hq
      have h1 : s.nextJobId + 1 ≤ q.1 := (submitOutputs_spec rest _ q hq).1
      show s.nextJobId < q.1
      omega
    · rw [submit_invalid s now text hv]
      exact ih s

/-- Acknowledge against the token of any job of a reachable store: the
response is always 200 "OK" and the job's status is overwritten according
to the `status` query parameter, whatever the previous status was. -/
theorem ack_found (s : Store) (j : Job) (sp : Option String)
    (hinv : StoreInv s) (hj : j ∈ s.jobs) :
    ∃ l1 l2, s.jobs = l1 ++ j :: l2 ∧
      ackCloudprnt s (some j.token) sp =
        (AckResp.okResp "OK",
         ⟨s.nextJobId,
          l1 ++ { j with status := if sp = some "0" then Status.done else Status.error } ::
            l2⟩) := by
  obtain ⟨_, ts, hts⟩ := hinv.1 j hj
  have hne : j.token ≠ "" := by rw [hts]; exact makeToken_ne_empty j.id ts
  obtain ⟨l1, l2, hdec, hset⟩ :=
    setFirstTokenStatus_decomp (inv_tokens_nodup hinv) hj
      (if sp = some "0" then Status.done else Status.error)
  refine ⟨l1, l2, hdec, ?_⟩
  rw [ackCloudprnt, if_neg hne, find?_token_of_mem hinv hj]
  exact congrArg (fun l => (AckResp.okResp "OK", (⟨s.nextJobId, l⟩ : Store))) hset

/-! ### Claim theorems -/

/-- C10: Fetch is a pure read: for every store state and every fetch request
(token parameter present or absent, known or unknown), the fetch operation
leaves the job store completely unchanged — no job's id, token, content, or
status is modified and no job is added or removed. -/
theorem fetch_pure_read (s : Store) (tp : Option String) : (fetchCloudprnt s tp).2 = s := by
  unfold fetchCloudprnt
  cases tp with
  | none => rfl
  | some t =>
    by_cases ht : t = ""
    · simp [ht]
    · simp only [if_neg ht]
      cases s.jobs.find? (fun j => j.token == t) <;> rfl

/-- C6: For every poll request: if no job has status pending, the response
is 200 with body `jobReady 0, mediaTypes ["text/plain"]` and the store is
unchanged; if some job is pending, the oldest pending job's status is
transitioned to printing and the response carries `jobReady 1`, that job's
token, `mediaTypes ["text/plain"]` and `pollInterval 5`. -/
theorem poll_response_spec (s : Store) :
    ((∀ j ∈ s.jobs, j.status ≠ Status.pending) →
      pollCloudprnt s =
        ({ jobReady := 0, jobToken := none, mediaTypes := ["text/plain"],
           pollInterval := none }, s))
    ∧ (∀ l1 j l2, s.jobs = l1 ++ j :: l2 → (∀ x ∈ l1, x.status ≠ Status.pending) →
        j.status = Status.pending →
        pollCloudprnt s =
          ({ jobReady := 1, jobToken := some j.token, mediaTypes := ["text/plain"],
             pollInterval := some 5 },
           ⟨s.nextJobId, l1 ++ { j with status := Status.printing } :: l2⟩)) := by
  constructor
  · intro h
    rw [pollCloudprnt, (claimFirstPending_none_iff s.jobs).mpr h]
  · intro l1 j l2 hdec hnp hp
    rw [pollCloudprnt, hdec, claimFirstPending_eq l1 j l2 hnp hp]

theorem poll_response_spec_witness :
    pollCloudprnt initStore =
      ({ jobReady := 0, jobToken := none, mediaTypes := ["text/plain"],
         pollInterval := none }, initStore)
    ∧ pollCloudprnt ⟨2, [⟨1, "t1", "x", Status.pending⟩]⟩ =
        ({ jobReady := 1, jobToken := some "t1", mediaTypes := ["text/plain"],
           pollInterval := some 5 },
         ⟨2, [⟨1, "t1", "x", Status.printing⟩]⟩) :=
  ⟨(poll_response_spec initStore).1 (by simp [initStore]),
   (poll_response_spec ⟨2, [⟨1, "t1", "x", Status.pending⟩]⟩).2
     [] ⟨1, "t1", "x", Status.pending⟩ [] rfl (by simp) rfl⟩

/-- C7: Fetch is status-blind: for every job in a reachable store, a fetch
with that job's token returns the job's content with a 200 response
regardless of the job's current status. -/
theorem fetch_status_blind (s : Store) (j : Job) (hinv : StoreInv s) (hj : j ∈ s.jobs) :
    fetchCloudprnt s (some j.token) = (FetchResp.contentResp j.content, s) ∧
    (FetchResp.contentResp j.content).httpCode = 200 := by
  obtain ⟨_, ts, hts⟩ := hinv.1 j hj
  have hne : j.token ≠ "" := by rw [hts]; exact makeToken_ne_empty j.id ts
  constructor
  · rw [fetchCloudprnt, if_neg hne, find?_token_of_mem hinv hj]
  · rfl

theorem fetch_status_blind_witness :
    fetchCloudprnt ⟨2, [⟨1, makeToken 1 0, "hello", Status.done⟩]⟩ (some (makeToken 1 0)) =
      (FetchResp.contentResp "hello", ⟨2, [⟨1, makeToken 1 0, "hello", Status.done⟩]⟩) ∧
    (FetchResp.contentResp "hello").httpCode = 200 :=
  fetch_status_blind ⟨2, [⟨1, makeToken 1 0, "hello", Status.done⟩]⟩
    ⟨1, makeToken 1 0, "hello", Status.done⟩
    ⟨by
      intro j hj
      rw [List.mem_singleton] at hj
      subst hj
      exact ⟨Nat.lt_succ_self 1, 0, rfl⟩,
     by simp⟩
    (by simp)

/-- C8: A submit whose body lacks a `text` field, or whose `text` is empty
or not a string, responds 400 with a JSON error body and leaves the store
completely unchanged (no job appended, counter not advanced); every other
submit responds 200 with `ok, id, token` for a newly created pending job. -/
theorem submit_validation (s : Store) (now : Nat) (text : Option JSVal) :
    ((¬ ∃ t, text = some (JSVal.str t) ∧ t ≠ "") →
      submitOrder s now text = (SubmitResp.err "Missing 'text' field", s) ∧
      (SubmitResp.err "Missing 'text' field").httpCode = 400)
    ∧ (∀ t, text = some (JSVal.str t) → t ≠ "" →
        submitOrder s now text =
          (SubmitResp.ok s.nextJobId (makeToken s.nextJobId now),
           ⟨s.nextJobId + 1,
            s.jobs ++ [⟨s.nextJobId, makeToken s.nextJobId now, t, Status.pending⟩]⟩) ∧
        (SubmitResp.ok s.nextJobId (makeToken s.nextJobId now)).httpCode = 200) := by
  constructor
  · intro h
    exact ⟨submit_invalid s now text h, rfl⟩
  · intro t hteq ht
    subst hteq
    exact ⟨submit_success s now t ht, rfl⟩

theorem submit_validation_witness :
    (submitOrder initStore 0 none = (SubmitResp.err "Missing 'text' field", initStore) ∧
      (SubmitResp.err "Missing 'text' field").httpCode = 400)
    ∧ (submitOrder initStore 0 (some (JSVal.str "Order")) =
        (SubmitResp.ok 1 (makeToken 1 0),
         ⟨2, [⟨1, makeToken 1 0, "Order", Status.pending⟩]⟩) ∧
      (SubmitResp.ok 1 (makeToken 1 0)).httpCode = 200) :=
  ⟨(submit_validation initStore 0 none).1 (by simp),
   (submit_validation initStore 0 (some (JSVal.str "Order"))).2 "Order" rfl (by decide)⟩

/-- C5: Across every sequence of submissions (from any store state, in
particular from the process-start state), the `id` values returned by the
successful ones are strictly increasing and the returned `token` values are
pairwise distinct. -/
theorem submit_ids_increasing_tokens_distinct (s : Store) (l : List (Nat × Option JSVal)) :
    ((submitOutputs s l).Pairwise fun p q => p.1 < q.1) ∧
    ((submitOutputs s l).Pairwise fun p q => p.2 ≠ q.2) := by
  have hlt := submitOutputs_ids_lt l s
  refine ⟨hlt, List.Pairwise.imp_of_mem ?_ hlt⟩
  intro p q hp hq hlt' heq
  obtain ⟨_, tsp, hp2⟩ := submitOutputs_spec l s p hp
  obtain ⟨_, tsq, hq2⟩ := submitOutputs_spec l s q hq
  rw [hp2, hq2] at heq
  have := makeToken_inj_id heq
  omega

/-- C1 counterexample: in the reachable state where job 1 (submitted,
polled, acknowledged with status "0") is terminal (`done`), a second
acknowledge with status "1" does not fail with any invalid-state error: it
responds 200 "OK" and changes the job's status from `done` to `error`. -/
theorem terminal_reack_cex :
    runOps initStore [Op.opSubmit 0 (some (JSVal.str "x")), Op.opPoll,
        Op.opAck (some (makeToken 1 0)) (some "0")] =
      ⟨2, [⟨1, makeToken 1 0, "x", Status.done⟩]⟩
    ∧ ackCloudprnt ⟨2, [⟨1, makeToken 1 0, "x", Status.done⟩]⟩
        (some (makeToken 1 0)) (some "1") =
        (AckResp.okResp "OK", ⟨2, [⟨1, makeToken 1 0, "x", Status.error⟩]⟩)
    ∧ Status.error ≠ Status.done
    ∧ (AckResp.okResp "OK").httpCode = 200 := by
  decide

/-- C1 (amended): a terminal (`done`/`error`) job's status can still change,
but only through the acknowledge operation: poll never touches a
non-pending job, fetch and failed submits never touch the store, successful
submits only append; re-acknowledging a terminal job succeeds with 200 "OK"
and overwrites its status according to the status parameter (`done` for
"0", `error` otherwise) instead of failing with an invalid-state error. -/
theorem terminal_status_ack_overwrites (s : Store) :
    (∀ j ∈ s.jobs, j.status ≠ Status.pending → j ∈ (pollCloudprnt s).2.jobs)
    ∧ (∀ tp, (fetchCloudprnt s tp).2 = s)
    ∧ (∀ now text, ∀ j ∈ s.jobs, j ∈ (submitOrder s now text).2.jobs)
    ∧ (∀ j sp, StoreInv s → j ∈ s.jobs →
        j.status = Status.done ∨ j.status = Status.error →
        ∃ l1 l2, s.jobs = l1 ++ j :: l2 ∧
          ackCloudprnt s (some j.token) sp =
            (AckResp.okResp "OK",
             ⟨s.nextJobId,
              l1 ++ { j with status := if sp = some "0" then Status.done else Status.error }
                :: l2⟩)) := by
  refine ⟨?_, ?_, ?_, ?_⟩
  · intro j hj hnp
    cases hc : claimFirstPending s.jobs with
    | none =>
      have he : (pollCloudprnt s).2 = s := by rw [pollCloudprnt, hc]
      rw [he]
      exact hj
    | some p =>
      obtain ⟨f, jobs'⟩ := p
      have he : (pollCloudprnt s).2 = { s with jobs := jobs' } := by rw [pollCloudprnt, hc]
      rw [he]
      obtain ⟨l1, l2, hdec, _, hp, hrest⟩ := claimFirstPending_some hc
      rw [hdec] at hj
      show j ∈ jobs'
      rw [hrest]
      rcases List.mem_append.mp hj with hj | hj
      · exact List.mem_append_left _ hj
      · rcases List.mem_cons.mp hj with rfl | hj
        · exact absurd hp hnp
        · exact List.mem_append_right _ (List.mem_cons_of_mem _ hj)
  · intro tp
    exact storeInv_fetch s tp
  · intro now text j hj
    match text with
    | none | some (JSVal.num _) | some (JSVal.boolean _) | some JSVal.null => exact hj
    | some (JSVal.str t) =>
      by_cases ht : t = ""
      · subst ht
        exact hj
      · rw [submit_success s now t ht]
        exact List.mem_append_left _ hj
  · intro j sp hinv hj _
    exact ack_found s j sp hinv hj

theorem terminal_status_ack_overwrites_witness :
    ∃ l1 l2, ([⟨1, makeToken 1 0, "x", Status.done⟩] : List Job) =
        l1 ++ ⟨1, makeToken 1 0, "x", Status.done⟩ :: l2 ∧
      ackCloudprnt ⟨2, [⟨1, makeToken 1 0, "x", Status.done⟩]⟩
          (some (makeToken 1 0)) (some "1") =
        (AckResp.okResp "OK",
         ⟨2, l1 ++ ⟨1, makeToken 1 0, "x", Status.error⟩ :: l2⟩) :=
  (terminal_status_ack_overwrites ⟨2, [⟨1, makeToken 1 0, "x", Status.done⟩]⟩).2.2.2
    ⟨1, makeToken 1 0, "x", Status.done⟩ (some "1")
    ⟨by
      intro j hj
      rw [List.mem_singleton] at hj
      subst hj
      exact ⟨Nat.lt_succ_self 1, 0, rfl⟩,
     by simp⟩
    (by simp) (Or.inl rfl)

/-- C2 counterexample: in the reachable state where job 1 is `printing`, an
acknowledge carrying the job's token but no `status` parameter does not
fail with a 400 BadRequest: it responds 200 "OK" and mutates the store,
recording `error` as the job's outcome. -/
theorem ack_missing_status_cex :
    runOps initStore [Op.opSubmit 0 (some (JSVal.str "x")), Op.opPoll] =
      ⟨2, [⟨1, makeToken 1 0, "x", Status.printing⟩]⟩
    ∧ ackCloudprnt ⟨2, [⟨1, makeToken 1 0, "x", Status.printing⟩]⟩
        (some (makeToken 1 0)) none =
        (AckResp.okResp "OK", ⟨2, [⟨1, makeToken 1 0, "x", Status.error⟩]⟩)
    ∧ (AckResp.okResp "OK").httpCode = 200 := by
  decide

/-- C2 (amended): an acknowledge fails with BadRequest (400, store
unchanged) only when the token parameter is absent (or empty, hence falsy);
the status parameter is not required: with the token of a stored job and an
absent status, the handler succeeds with 200 "OK" and records `error` as
the job's outcome. -/
theorem ack_missing_status_records_error (s : Store) :
    (∀ sp, ackCloudprnt s none sp = (AckResp.badRequest "Missing job_token", s) ∧
      (AckResp.badRequest "Missing job_token").httpCode = 400)
    ∧ (∀ j, StoreInv s → j ∈ s.jobs →
        ∃ l1 l2, s.jobs = l1 ++ j :: l2 ∧
          ackCloudprnt s (some j.token) none =
            (AckResp.okResp "OK",
             ⟨s.nextJobId, l1 ++ { j with status := Status.error } :: l2⟩)) := by
  constructor
  · intro sp
    exact ⟨rfl, rfl⟩
  · intro j hinv hj
    exact ack_found s j none hinv hj

theorem ack_missing_status_records_error_witness :
    (ackCloudprnt ⟨2, [⟨1, makeToken 1 0, "x", Status.printing⟩]⟩ none none =
        (AckResp.badRequest "Missing job_token",
         ⟨2, [⟨1, makeToken 1 0, "x", Status.printing⟩]⟩) ∧
      (AckResp.badRequest "Missing job_token").httpCode = 400)
    ∧ ∃ l1 l2, ([⟨1, makeToken 1 0, "x", Status.printing⟩] : List Job) =
        l1 ++ ⟨1, makeToken 1 0, "x", Status.printing⟩ :: l2 ∧
      ackCloudprnt ⟨2, [⟨1, makeToken 1 0, "x", Status.printing⟩]⟩
          (some (makeToken 1 0)) none =
        (AckResp.okResp "OK",
         ⟨2, l1 ++ ⟨1, makeToken 1 0, "x", Status.error⟩ :: l2⟩) :=
  ⟨(ack_missing_status_records_error ⟨2, [⟨1, makeToken 1 0, "x", Status.printing⟩]⟩).1 none,
   (ack_missing_status_records_error ⟨2, [⟨1, makeToken 1 0, "x", Status.printing⟩]⟩).2
     ⟨1, makeToken 1 0, "x", Status.printing⟩
     ⟨by
       intro j hj
       rw [List.mem_singleton] at hj
       subst hj
       exact ⟨Nat.lt_succ_self 1, 0, rfl⟩,
      by simp⟩
     (by simp)⟩

/-- C9: modelling concurrent polls as an arbitrary serialization of the
fully synchronous poll handler (the JavaScript event loop runs each handler
to completion): against a store with exactly one pending job, N ≥ 1
sequential polls produce exactly one "job ready" response, that response
carries the pending job's token, and the other N−1 responses are
"no job ready". -/
theorem no_double_dispatch (s : Store) (j : Job) (N : Nat)
    (hfil : s.jobs.filter isPending = [j]) (hN : 1 ≤ N) :
    ((runPolls s N).countP fun r => r.jobReady == 1) = 1 ∧
    ((runPolls s N).countP fun r => r.jobReady == 0) = N - 1 ∧
    ∀ r ∈ runPolls s N, r.jobReady = 1 → r.jobToken = some j.token := by
  obtain ⟨n, rfl⟩ : ∃ n, N = n + 1 := ⟨N - 1, by omega⟩
  have hready := poll_jobReady_of_filter_cons hfil
  have hafter : (pollCloudprnt s).2.jobs.filter isPending = [] := by
    rw [poll_filter, hfil]
    rfl
  rw [runPolls, runPolls_all_zero _ n hafter]
  refine ⟨?_, ?_, ?_⟩
  · rw [List.countP_cons, countP_replicate]
    simp [hready.1]
  · rw [List.countP_cons, countP_replicate]
    simp [hready.1]
  · intro r hr h1
    rcases List.mem_cons.mp hr with rfl | hr
    · exact hready.2
    · rw [List.eq_of_mem_replicate hr] at h1
      exact absurd h1 (by decide)

theorem no_double_dispatch_witness :
    ((runPolls ⟨2, [⟨1, "t1", "x", Status.pending⟩]⟩ 3).countP fun r => r.jobReady == 1) = 1 ∧
    ((runPolls ⟨2, [⟨1, "t1", "x", Status.pending⟩]⟩ 3).countP fun r => r.jobReady == 0) = 2 ∧
    ∀ r ∈ runPolls ⟨2, [⟨1, "t1", "x", Status.pending⟩]⟩ 3, r.jobReady = 1 →
      r.jobToken = some "t1" :=
  no_double_dispatch ⟨2, [⟨1, "t1", "x", Status.pending⟩]⟩
    ⟨1, "t1", "x", Status.pending⟩ 3 (by decide) (by decide)

theorem polls_three {s : Store} {a b c : Job}
    (h : s.jobs.filter isPending = [a, b, c]) :
    ((pollCloudprnt s).1).jobToken = some a.token ∧
    ((pollCloudprnt (pollCloudprnt s).2).1).jobToken = some b.token ∧
    ((pollCloudprnt (pollCloudprnt (pollCloudprnt s).2).2).1).jobToken = some c.token := by
  have h1 := poll_jobReady_of_filter_cons h
  have hf2 : (pollCloudprnt s).2.jobs.filter isPending = [b, c] := by
    rw [poll_filter, h]
    rfl
  have h2 := poll_jobReady_of_filter_cons hf2
  have hf3 : (pollCloudprnt (pollCloudprnt s).2).2.jobs.filter isPending = [c] := by
    rw [poll_filter, hf2]
    rfl
  have h3 := poll_jobReady_of_filter_cons hf3
  exact ⟨h1.2, h2.2, h3.2⟩

/-- C3: Dispatch is first-in-first-out: for every store state a poll
returns the token of the earliest-inserted pending job (the head of the
pending jobs in insertion order); and for jobs submitted in order A, B, C
into a store with no pending job, three sequential polls return the three
submissions' tokens in that same order. -/
theorem fifo_dispatch :
    (∀ s : Store, ((pollCloudprnt s).1).jobToken =
        ((s.jobs.filter isPending).head?).map fun j => j.token)
    ∧ (∀ (s : Store) (nowA nowB nowC : Nat) (A B C : String),
        A ≠ "" → B ≠ "" → C ≠ "" → s.jobs.filter isPending = [] →
        ∃ iA iB iC tkA tkB tkC,
          (submitOrder s nowA (some (JSVal.str A))).1 = SubmitResp.ok iA tkA ∧
          (submitOrder (submitOrder s nowA (some (JSVal.str A))).2 nowB
              (some (JSVal.str B))).1 = SubmitResp.ok iB tkB ∧
          (submitOrder (submitOrder (submitOrder s nowA (some (JSVal.str A))).2 nowB
              (some (JSVal.str B))).2 nowC (some (JSVal.str C))).1 = SubmitResp.ok iC tkC ∧
          (((pollCloudprnt
              (submitOrder (submitOrder (submitOrder s nowA (some (JSVal.str A))).2 nowB
                (some (JSVal.str B))).2 nowC (some (JSVal.str C))).2).1).jobToken =
            some tkA) ∧
          (((pollCloudprnt (pollCloudprnt
              (submitOrder (submitOrder (submitOrder s nowA (some (JSVal.str A))).2 nowB
                (some (JSVal.str B))).2 nowC (some (JSVal.str C))).2).2).1).jobToken =
            some tkB) ∧
          (((pollCloudprnt (pollCloudprnt (pollCloudprnt
              (submitOrder (submitOrder (submitOrder s nowA (some (JSVal.str A))).2 nowB
                (some (JSVal.str B))).2 nowC (some (JSVal.str C))).2).2).2).1).jobToken =
            some tkC)) := by
  constructor
  · exact poll_jobToken
  · intro s nowA nowB nowC A B C hA hB hC hfil
    have f1 : (submitOrder s nowA (some (JSVal.str A))).2.jobs.filter isPending =
        [⟨s.nextJobId, makeToken s.nextJobId nowA, A, Status.pending⟩] := by
      rw [submit_filter s nowA A hA, hfil]
      rfl
    have f2 : (submitOrder (submitOrder s nowA (some (JSVal.str A))).2 nowB
        (some (JSVal.str B))).2.jobs.filter isPending =
        [⟨s.nextJobId, makeToken s.nextJobId nowA, A, Status.pending⟩,
         ⟨(submitOrder s nowA (some (JSVal.str A))).2.nextJobId,
          makeToken (submitOrder s nowA (some (JSVal.str A))).2.nextJobId nowB, B,
          Status.pending⟩] := by
      rw [submit_filter _ nowB B hB, f1]
      rfl
    have f3 : (submitOrder (submitOrder (submitOrder s nowA (some (JSVal.str A))).2 nowB
        (some (JSVal.str B))).2 nowC (some (JSVal.str C))).2.jobs.filter isPending =
        [⟨s.nextJobId, makeToken s.nextJobId nowA, A, Status.pending⟩,
         ⟨(submitOrder s nowA (some (JSVal.str A))).2.nextJobId,
          makeToken (submitOrder s nowA (some (JSVal.str A))).2.nextJobId nowB, B,
          Status.pending⟩,
         ⟨(submitOrder (submitOrder s nowA (some (JSVal.str A))).2 nowB
            (some (JSVal.str B))).2.nextJobId,
          makeToken (submitOrder (submitOrder s nowA (some (JSVal.str A))).2 nowB
            (some (JSVal.str B))).2.nextJobId nowC, C, Status.pending⟩] := by
      rw [submit_filter _ nowC C hC, f2]
      rfl
    obtain ⟨p1, p2, p3⟩ := polls_three f3
    exact ⟨s.nextJobId,
      (submitOrder s nowA (some (JSVal.str A))).2.nextJobId,
      (submitOrder (submitOrder s nowA (some (JSVal.str A))).2 nowB
        (some (JSVal.str B))).2.nextJobId,
      makeToken s.nextJobId nowA,
      makeToken (submitOrder s nowA (some (JSVal.str A))).2.nextJobId nowB,
      makeToken (submitOrder (submitOrder s nowA (some (JSVal.str A))).2 nowB
        (some (JSVal.str B))).2.nextJobId nowC,
      congrArg Prod.fst (submit_success s nowA A hA),
      congrArg Prod.fst (submit_success _ nowB B hB),
      congrArg Prod.fst (submit_success _ nowC C hC),
      p1, p2, p3⟩

theorem fifo_dispatch_witness :
    ∃ iA iB iC tkA tkB tkC,
      (submitOrder initStore 0 (some (JSVal.str "a"))).1 = SubmitResp.ok iA tkA ∧
      (submitOrder (submitOrder initStore 0 (some (JSVal.str "a"))).2 0
          (some (JSVal.str "b"))).1 = SubmitResp.ok iB tkB ∧
      (submitOrder (submitOrder (submitOrder initStore 0 (some (JSVal.str "a"))).2 0
          (some (JSVal.str "b"))).2 0 (some (JSVal.str "c"))).1 = SubmitResp.ok iC tkC ∧
      (((pollCloudprnt
          (submitOrder (submitOrder (submitOrder initStore 0 (some (JSVal.str "a"))).2 0
            (some (JSVal.str "b"))).2 0 (some (JSVal.str "c"))).2).1).jobToken =
        some tkA) ∧
      (((pollCloudprnt (pollCloudprnt
          (submitOrder (submitOrder (submitOrder initStore 0 (some (JSVal.str "a"))).2 0
            (some (JSVal.str "b"))).2 0 (some (JSVal.str "c"))).2).2).1).jobToken =
        some tkB) ∧
      (((pollCloudprnt (pollCloudprnt (pollCloudprnt
          (submitOrder (submitOrder (submitOrder initStore 0 (some (JSVal.str "a"))).2 0
            (some (JSVal.str "b"))).2 0 (some (JSVal.str "c"))).2).2).2).1).jobToken =
        some tkC) :=
  fifo_dispatch.2 initStore 0 0 0 "a" "b" "c" (by decide) (by decide) (by decide) rfl

/-- C4: Round-trip of content through the store: a successful submission
with text T returns a token such that, after any further sequence of
operations, a fetch with that token responds with body exactly T; and a
fetch with a token that matches no job always yields the 404 not-found
error. -/
theorem content_roundtrip :
    (∀ (s : Store) (now : Nat) (T : String) (ops : List Op), StoreInv s → T ≠ "" →
      ∃ id tk, (submitOrder s now (some (JSVal.str T))).1 = SubmitResp.ok id tk ∧
        (fetchCloudprnt (runOps (submitOrder s now (some (JSVal.str T))).2 ops)
            (some tk)).1 = FetchResp.contentResp T)
    ∧ (∀ (s : Store) (t : String), t ≠ "" → (∀ j ∈ s.jobs, j.token ≠ t) →
        fetchCloudprnt s (some t) = (FetchResp.notFound "Job not found", s) ∧
        (FetchResp.notFound "Job not found").httpCode = 404) := by
  constructor
  · intro s now T ops hinv hT
    refine ⟨s.nextJobId, makeToken s.nextJobId now,
      congrArg Prod.fst (submit_success s now T hT), ?_⟩
    have hstart : lookupContent (submitOrder s now (some (JSVal.str T))).2
        (makeToken s.nextJobId now) = some T := by
      rw [submit_success s now T hT]
      rw [lookupContent]
      have hnone : s.jobs.find? (fun j => j.token == makeToken s.nextJobId now) = none := by
        rw [List.find?_eq_none]
        intro j hj hbeq
        obtain ⟨hlt, ts, hts⟩ := hinv.1 j hj
        have heq : j.token = makeToken s.nextJobId now := by simpa using hbeq
        rw [hts] at heq
        have := makeToken_inj_id heq
        omega
      show ((s.jobs ++ [_]).find? _).map _ = _
      rw [List.find?_append, hnone]
      simp [List.find?]
    have hkeep := lookupContent_runOps (submitOrder s now (some (JSVal.str T))).2 ops
      (makeToken s.nextJobId now) hstart
    obtain ⟨j, hfind, hcont⟩ := Option.map_eq_some'.mp hkeep
    rw [fetchCloudprnt, if_neg (makeToken_ne_empty s.nextJobId now), hfind]
    exact congrArg FetchResp.contentResp hcont
  · intro s t ht hnot
    have hnone : s.jobs.find? (fun j => j.token == t) = none := by
      rw [List.find?_eq_none]
      intro j hj hbeq
      exact hnot j hj (by simpa using hbeq)
    exact ⟨by rw [fetchCloudprnt, if_neg ht, hnone], rfl⟩

theorem content_roundtrip_witness :
    (∃ id tk, (submitOrder initStore 0 (some (JSVal.str "Order"))).1 = SubmitResp.ok id tk ∧
      (fetchCloudprnt (runOps (submitOrder initStore 0 (some (JSVal.str "Order"))).2
          [Op.opPoll]) (some tk)).1 = FetchResp.contentResp "Order")
    ∧ (fetchCloudprnt initStore (some "ghost") =
        (FetchResp.notFound "Job not found", initStore) ∧
      (FetchResp.notFound "Job not found").httpCode = 404) :=
  ⟨content_roundtrip.1 initStore 0 "Order" [Op.opPoll] storeInv_init (by decide),
   content_roundtrip.2 initStore "ghost" (by decide) (by simp [initStore])⟩

end CloudPrnt
